import Mathlib

/-!
Verification of the frame-timing core of the gif_to_avif converter.

The Python functions are embedded as pure Lean functions:
- `calculate_timing` (duration normalizer): per-frame records with a
  `duration` and a `subdivisions` field, iteratively halving the longest
  durations up to a fixed iteration cap, then returning the rounded mean
  duration and the per-frame subdivision counts.
- `duplicate_frames_for_timing` (frame expander): repeats each source frame
  according to its subdivision count; the length-mismatch assert is embedded
  as an `Option` result (`none` models the fatal assertion failure).
- `handle_single_frame` and `append_single_duration`: the single-frame
  duplication logic of the two pipeline variants.

Machine integers are modelled as `Nat` (Python ints are unbounded, and all
quantities here are nonnegative).  The float literal `1.1` in the
convergence test is read as the exact rational `11/10` (the comparison
`max_duration <= min_duration * 1.1` agrees with `10 * max <= 11 * min`
for all realistic magnitudes), and `round(mean(...))` is modelled as the
exact rational mean followed by round-half-to-even, which is Python's
rounding of the exact fraction computed by `statistics.mean`.
-/

/-- One frame record of `calculate_timing`: the Python dict
`{"duration": d, "subdivisions": s}`. -/
structure FrameRec where
  duration : Nat
  subdivisions : Nat
deriving Repr, DecidableEq, Inhabited

/-- Python `min` over a nonempty list (`0` on the empty list, which never
occurs in the program). -/
def listMin : List Nat → Nat
  | [] => 0
  | d :: ds => ds.foldl min d

/-- Python `max` over a nonempty list (`0` on the empty list, which never
occurs in the program). -/
def listMax : List Nat → Nat
  | [] => 0
  | d :: ds => ds.foldl max d

/-- `min_duration = min(f["duration"] for f in frames)`. -/
def minDur (frames : List FrameRec) : Nat :=
  listMin (frames.map (fun f => f.duration))

/-- `max_duration = max(f["duration"] for f in frames)`. -/
def maxDur (frames : List FrameRec) : Nat :=
  listMax (frames.map (fun f => f.duration))

/-- The convergence test of `calculate_timing`:
`(max_duration <= min_duration * 1.1) or abs(max_duration - min_duration) <= 10`.
The float product `min_duration * 1.1` is read exactly as `11 * min / 10`,
i.e. the first disjunct is `10 * max <= 11 * min`; since `max ≥ min`, the
absolute difference is the truncated subtraction `max - min`. -/
def converged (frames : List FrameRec) : Bool :=
  decide (10 * maxDur frames ≤ 11 * minDur frames) ||
    decide (maxDur frames - minDur frames ≤ 10)

/-- One splitting pass: every frame whose duration equals `mx`
(the current maximum) gets `duration //= 2` and `subdivisions *= 2`;
all other frames are unchanged. -/
def splitStep (mx : Nat) (frames : List FrameRec) : List FrameRec :=
  frames.map (fun f =>
    if f.duration = mx then ⟨f.duration / 2, f.subdivisions * 2⟩ else f)

/-- `max_iterations = 12  # Safety limit`. -/
def max_iterations : Nat := 12

/-- The `for iteration in range(max_iterations)` loop of `calculate_timing`:
break when `converged`, otherwise split all longest frames and continue. -/
def calcLoop : Nat → List FrameRec → List FrameRec
  | 0, frames => frames
  | n + 1, frames =>
    if converged frames then frames
    else calcLoop n (splitStep (maxDur frames) frames)

/-- Number of splitting iterations actually performed by `calcLoop`. -/
def calcIters : Nat → List FrameRec → Nat
  | 0, _ => 0
  | n + 1, frames =>
    if converged frames then 0
    else calcIters n (splitStep (maxDur frames) frames) + 1

/-- The record initialisation of `calculate_timing`: one record per input
duration, `{"duration": duration_ms, "subdivisions": 1}`. -/
def initFrames (durations_ms : List Nat) : List FrameRec :=
  durations_ms.map (fun d => ⟨d, 1⟩)

/-- Exact rational mean of a list of naturals (`statistics.mean`). -/
def qMean (l : List Nat) : ℚ :=
  (l.sum : ℚ) / (l.length : ℚ)

/-- Python's `round` on an exact rational: round half to even. -/
def pyRound (q : ℚ) : ℤ :=
  if q - ⌊q⌋ < 1 / 2 then ⌊q⌋
  else if 1 / 2 < q - ⌊q⌋ then ⌊q⌋ + 1
  else if 2 ∣ ⌊q⌋ then ⌊q⌋ else ⌊q⌋ + 1

/-- `calculate_timing(durations_ms)`: returns `(40, [])` on empty input,
otherwise runs the balancing loop and returns the rounded mean of the final
durations together with the per-frame subdivision counts. -/
def calculate_timing (durations_ms : List Nat) : ℤ × List Nat :=
  if durations_ms.isEmpty then (40, [])
  else
    let frames := calcLoop max_iterations (initFrames durations_ms)
    (pyRound (qMean (frames.map (fun f => f.duration))),
     frames.map (fun f => f.subdivisions))

/-- `duplicate_frames_for_timing(temp_dir, duplication_counts)`: the sorted
PNG files of the directory are abstracted as the list `original_files`; the
function asserts `len(original_files) == len(duplication_counts)` (`none`
models the assertion failure) and otherwise emits, in order, `count` copies
of each original frame. -/
def duplicate_frames_for_timing {α : Type} (original_files : List α)
    (duplication_counts : List Nat) : Option (List α) :=
  if original_files.length = duplication_counts.length then
    some (((original_files.zip duplication_counts).map
      (fun p => List.replicate p.2 p.1)).flatten)
  else none

/-- Modelled from the spec wording of the expander behaviour: for each index
`i` in order, `counts[i]` consecutive references to source frame `i`.
Used as the specification side of the refinement claim about
`duplicate_frames_for_timing`. -/
def expandSpec {α : Type} : List α → List Nat → List α
  | [], _ => []
  | _ :: _, [] => []
  | f :: fs, c :: cs => List.replicate c f ++ expandSpec fs cs

/-- `handle_single_frame(temp_dir)`: if the directory holds exactly one PNG
frame, a copy of it is added (so the encoder receives two frames);
otherwise nothing happens. -/
def handle_single_frame {α : Type} : List α → List α
  | [x] => [x, x]
  | l => l

/-- The single-frame duration handling of the `avif_gifs` pipeline variant:
`if len(frame_durations_ms) == 1: frame_durations_ms.append(frame_durations_ms[0])`. -/
def append_single_duration : List Nat → List Nat
  | [d] => [d, d]
  | l => l

/-- Display-time conservation bounds relating a frame record to the original
duration it was created from: the accumulated halving error is below the
number of subdivisions, and the duration never reaches zero. -/
abbrev recordBounds (orig : Nat) (f : FrameRec) : Prop :=
  1 ≤ f.duration ∧
  f.subdivisions * f.duration ≤ orig ∧
  orig ≤ f.subdivisions * f.duration + (f.subdivisions - 1)

/-- Loop invariant of the balancing loop: the record list keeps the length of
the input and every record satisfies `recordBounds` against its original
duration, with at least one subdivision. -/
def timingInv (ds : List Nat) (frames : List FrameRec) : Prop :=
  frames.length = ds.length ∧
  ∀ i (hf : i < frames.length) (hd : i < ds.length),
    1 ≤ (frames.get ⟨i, hf⟩).subdivisions ∧
    recordBounds (ds.get ⟨i, hd⟩) (frames.get ⟨i, hf⟩)

/-! ### Basic lemmas about the embedded definitions -/

theorem foldl_min_le_foldl_max (l : List Nat) :
    ∀ a b : Nat, a ≤ b → l.foldl min a ≤ l.foldl max b := by
  induction l with
  | nil => intro a b h; exact h
  | cons c t ih =>
    intro a b h
    exact ih _ _ (le_trans (min_le_left a c) (le_trans h (le_max_left b c)))

theorem listMin_le_listMax (l : List Nat) : listMin l ≤ listMax l := by
  cases l with
  | nil => exact le_refl 0
  | cons d t => exact foldl_min_le_foldl_max t d d (le_refl d)

theorem minDur_le_maxDur (frames : List FrameRec) :
    minDur frames ≤ maxDur frames :=
  listMin_le_listMax _

theorem splitStep_length (mx : Nat) (frames : List FrameRec) :
    (splitStep mx frames).length = frames.length := by
  simp [splitStep]

theorem calcLoop_length : ∀ (n : Nat) (frames : List FrameRec),
    (calcLoop n frames).length = frames.length := by
  intro n
  induction n with
  | zero => intro frames; rfl
  | succ n ih =>
    intro frames
    by_cases h : converged frames
    · simp [calcLoop, h]
    · simp [calcLoop, h, ih, splitStep_length]

theorem calcLoop_of_converged (frames : List FrameRec)
    (h : converged frames = true) : ∀ n, calcLoop n frames = frames := by
  intro n
  cases n with
  | zero => rfl
  | succ n => simp [calcLoop, h]

theorem calcIters_of_converged (frames : List FrameRec)
    (h : converged frames = true) : ∀ n, calcIters n frames = 0 := by
  intro n
  cases n with
  | zero => rfl
  | succ n => simp [calcIters, h]

theorem calcIters_le : ∀ (n : Nat) (frames : List FrameRec),
    calcIters n frames ≤ n := by
  intro n
  induction n with
  | zero => intro frames; exact le_refl 0
  | succ n ih =>
    intro frames
    by_cases h : converged frames
    · simp [calcIters, h]
    · simp only [calcIters, h, if_false, Bool.false_eq_true]
      exact Nat.succ_le_succ (ih _)

theorem calculate_timing_cons (d : Nat) (t : List Nat) :
    calculate_timing (d :: t) =
      (pyRound (qMean ((calcLoop max_iterations (initFrames (d :: t))).map
        (fun f => f.duration))),
       (calcLoop max_iterations (initFrames (d :: t))).map
        (fun f => f.subdivisions)) := rfl

theorem foldl_min_replicate (a : Nat) :
    ∀ m : Nat, List.foldl min a (List.replicate m a) = a := by
  intro m
  induction m with
  | zero => rfl
  | succ m ih => simpa [List.replicate_succ, min_self] using ih

theorem foldl_max_replicate (a : Nat) :
    ∀ m : Nat, List.foldl max a (List.replicate m a) = a := by
  intro m
  induction m with
  | zero => rfl
  | succ m ih => simpa [List.replicate_succ, max_self] using ih

theorem listMin_replicate_succ (m d : Nat) :
    listMin (List.replicate (m + 1) d) = d := by
  simp only [List.replicate_succ, listMin]
  exact foldl_min_replicate d m

theorem listMax_replicate_succ (m d : Nat) :
    listMax (List.replicate (m + 1) d) = d := by
  simp only [List.replicate_succ, listMax]
  exact foldl_max_replicate d m

theorem initFrames_replicate (n d : Nat) :
    initFrames (List.replicate n d) = List.replicate n ⟨d, 1⟩ := by
  simp [initFrames]

theorem converged_replicate (m d : Nat) :
    converged (initFrames (List.replicate (m + 1) d)) = true := by
  have hmap : (initFrames (List.replicate (m + 1) d)).map (fun f => f.duration) =
      List.replicate (m + 1) d := by
    simp [initFrames, List.map_map, Function.comp]
  simp only [converged, maxDur, minDur, hmap, listMin_replicate_succ,
    listMax_replicate_succ, Bool.or_eq_true, decide_eq_true_eq]
  right
  omega

theorem pyRound_natCast (d : Nat) : pyRound (d : ℚ) = (d : ℤ) := by
  have hfl : ⌊(d : ℚ)⌋ = (d : ℤ) := Int.floor_natCast d
  have hc : (d : ℚ) - (((d : ℤ) : ℚ)) < 1 / 2 := by push_cast; norm_num
  simp only [pyRound, hfl]
  rw [if_pos hc]

theorem qMean_replicate_succ (m d : Nat) :
    qMean (List.replicate (m + 1) d) = (d : ℚ) := by
  have hne : ((m : ℚ) + 1) ≠ 0 := by positivity
  simp only [qMean, List.sum_replicate, List.length_replicate, smul_eq_mul]
  push_cast
  field_simp

theorem calculate_timing_replicate (m d : Nat) :
    calculate_timing (List.replicate (m + 1) d) =
      ((d : ℤ), List.replicate (m + 1) 1) := by
  have h1 : List.replicate (m + 1) d = d :: List.replicate m d :=
    List.replicate_succ d m
  rw [h1, calculate_timing_cons, ← h1,
    calcLoop_of_converged _ (converged_replicate m d), initFrames_replicate]
  simp [List.map_replicate, qMean_replicate_succ, pyRound_natCast]

theorem zip_expand_eq {α : Type} : ∀ (frames : List α) (counts : List Nat),
    frames.length = counts.length →
    ((frames.zip counts).map (fun p => List.replicate p.2 p.1)).flatten =
      expandSpec frames counts := by
  intro frames
  induction frames with
  | nil =>
    intro counts h
    cases counts with
    | nil => rfl
    | cons c cs => simp at h
  | cons f fs ih =>
    intro counts h
    cases counts with
    | nil => simp at h
    | cons c cs =>
      simp only [List.zip_cons_cons, List.map_cons, List.flatten_cons,
        expandSpec]
      rw [ih cs (by simpa using h)]

theorem expandSpec_length {α : Type} : ∀ (frames : List α) (counts : List Nat),
    frames.length = counts.length →
    (expandSpec frames counts).length = counts.sum := by
  intro frames
  induction frames with
  | nil =>
    intro counts h
    cases counts with
    | nil => rfl
    | cons c cs => simp at h
  | cons f fs ih =>
    intro counts h
    cases counts with
    | nil => simp at h
    | cons c cs =>
      simp only [expandSpec, List.length_append, List.length_replicate,
        List.sum_cons]
      rw [ih cs (by simpa using h)]

theorem subs_pow_splitStep (mx : Nat) (frames : List FrameRec)
    (h : ∀ f ∈ frames, ∃ k, f.subdivisions = 2 ^ k) :
    ∀ f ∈ splitStep mx frames, ∃ k, f.subdivisions = 2 ^ k := by
  intro f hf
  simp only [splitStep, List.mem_map] at hf
  obtain ⟨g, hg, rfl⟩ := hf
  obtain ⟨k, hk⟩ := h g hg
  by_cases hd : g.duration = mx
  · exact ⟨k + 1, by simp [hd, hk, pow_succ]⟩
  · exact ⟨k, by simp [hd, hk]⟩

theorem subs_pow_calcLoop : ∀ (n : Nat) (frames : List FrameRec),
    (∀ f ∈ frames, ∃ k, f.subdivisions = 2 ^ k) →
    ∀ f ∈ calcLoop n frames, ∃ k, f.subdivisions = 2 ^ k := by
  intro n
  induction n with
  | zero => intro frames h; exact h
  | succ n ih =>
    intro frames h
    by_cases hc : converged frames
    · rw [calcLoop_of_converged _ hc]; exact h
    · simp only [calcLoop]
      rw [if_neg hc]
      exact ih _ (subs_pow_splitStep _ _ h)

theorem not_converged_eleven (frames : List FrameRec)
    (hc : converged frames = false) : 11 ≤ maxDur frames := by
  simp only [converged, Bool.or_eq_false_iff, decide_eq_false_iff_not] at hc
  omega

theorem timingInv_init (ds : List Nat) (h1 : ∀ d ∈ ds, 1 ≤ d) :
    timingInv ds (initFrames ds) := by
  refine ⟨by simp [initFrames], ?_⟩
  intro i hf hd
  have hget : (initFrames ds).get ⟨i, hf⟩ = ⟨ds.get ⟨i, hd⟩, 1⟩ := by
    simp [initFrames, List.get_eq_getElem]
  rw [hget]
  have hdm : 1 ≤ ds.get ⟨i, hd⟩ := h1 _ (ds.get_mem i hd)
  exact ⟨le_refl 1, hdm, by simp, by simp⟩

theorem timingInv_splitStep (ds : List Nat) (frames : List FrameRec)
    (hc : converged frames = false) (h : timingInv ds frames) :
    timingInv ds (splitStep (maxDur frames) frames) := by
  obtain ⟨hlen, hidx⟩ := h
  refine ⟨by rw [splitStep_length]; exact hlen, ?_⟩
  intro i hf hd
  have hf0 : i < frames.length := by rw [splitStep_length] at hf; exact hf
  obtain ⟨hsub, hdur1, hlow, hhigh⟩ := hidx i hf0 hd
  have hget : (splitStep (maxDur frames) frames).get ⟨i, hf⟩ =
      if (frames.get ⟨i, hf0⟩).duration = maxDur frames then
        (⟨(frames.get ⟨i, hf0⟩).duration / 2,
          (frames.get ⟨i, hf0⟩).subdivisions * 2⟩ : FrameRec)
      else frames.get ⟨i, hf0⟩ := by
    simp [splitStep, List.get_eq_getElem]
  rw [hget]
  by_cases hmx : (frames.get ⟨i, hf0⟩).duration = maxDur frames
  · rw [if_pos hmx]
    have h11 : 11 ≤ (frames.get ⟨i, hf0⟩).duration := by
      rw [hmx]; exact not_converged_eleven frames hc
    set S := (frames.get ⟨i, hf0⟩).subdivisions with hS
    set D := (frames.get ⟨i, hf0⟩).duration with hD
    have e1 : S * 2 * (D / 2) ≤ S * D := by
      calc S * 2 * (D / 2) = S * (2 * (D / 2)) := by ring
        _ ≤ S * D := mul_le_mul_left' (by omega) S
    have e2 : S * D ≤ S * 2 * (D / 2) + S := by
      calc S * D ≤ S * (2 * (D / 2) + 1) := mul_le_mul_left' (by omega) S
        _ = S * 2 * (D / 2) + S := by ring
    refine ⟨?_, ?_, ?_, ?_⟩
    · show 1 ≤ S * 2
      omega
    · show 1 ≤ D / 2
      omega
    · show S * 2 * (D / 2) ≤ ds.get ⟨i, hd⟩
      exact le_trans e1 hlow
    · show ds.get ⟨i, hd⟩ ≤ S * 2 * (D / 2) + (S * 2 - 1)
      calc ds.get ⟨i, hd⟩ ≤ S * D + (S - 1) := hhigh
        _ ≤ S * 2 * (D / 2) + S + (S - 1) := Nat.add_le_add_right e2 _
        _ = S * 2 * (D / 2) + (S + (S - 1)) := add_assoc _ _ _
        _ = S * 2 * (D / 2) + (S * 2 - 1) := by
            have hss : S + (S - 1) = S * 2 - 1 := by omega
            rw [hss]
  · rw [if_neg hmx]
    exact ⟨hsub, hdur1, hlow, hhigh⟩

theorem timingInv_calcLoop (ds : List Nat) : ∀ (n : Nat) (frames : List FrameRec),
    timingInv ds frames → timingInv ds (calcLoop n frames) := by
  intro n
  induction n with
  | zero => intro frames h; exact h
  | succ n ih =>
    intro frames h
    by_cases hc : converged frames
    · rw [calcLoop_of_converged _ hc]; exact h
    · simp only [calcLoop]
      rw [if_neg hc]
      exact ih _ (timingInv_splitStep ds frames (by simpa using hc) h)

theorem nat_ratio_iff (mx mn : Nat) :
    10 * mx ≤ 11 * mn ↔ (mx : ℚ) ≤ (mn : ℚ) * 1.1 := by
  have h11 : (1.1 : ℚ) = 11 / 10 := by norm_num
  constructor
  · intro h
    have hq : (10 : ℚ) * mx ≤ 11 * mn := by exact_mod_cast h
    rw [h11]
    linarith
  · intro h
    rw [h11] at h
    have hq : (10 : ℚ) * mx ≤ 11 * mn := by linarith
    exact_mod_cast hq

theorem nat_abs_iff (mx mn : Nat) (h : mn ≤ mx) :
    mx - mn ≤ 10 ↔ |(mx : ℤ) - (mn : ℤ)| ≤ 10 := by
  have hz : (mn : ℤ) ≤ (mx : ℤ) := by exact_mod_cast h
  rw [abs_of_nonneg (sub_nonneg.mpr hz)]
  omega

/-! ### Claim theorems -/

/-- C1: on a non-empty record list, an iteration of the balancing loop stops
exactly when the maximum duration is within the relative `1.1` or absolute
`10` tolerance of the minimum; otherwise every record whose duration equals
the current maximum has its duration floor-halved and its subdivisions
doubled, and no other record is modified in that iteration. -/
theorem claim_c1_loop_step (frames : List FrameRec) (hne : frames ≠ [])
    (n : Nat) :
    (converged frames = true ↔
      ((maxDur frames : ℚ) ≤ (minDur frames : ℚ) * 1.1 ∨
       |(maxDur frames : ℤ) - (minDur frames : ℤ)| ≤ 10)) ∧
    (converged frames = true → calcLoop (n + 1) frames = frames) ∧
    (converged frames = false →
      calcLoop (n + 1) frames = calcLoop n (splitStep (maxDur frames) frames) ∧
      ∀ i (h1 : i < frames.length)
        (h2 : i < (splitStep (maxDur frames) frames).length),
        (splitStep (maxDur frames) frames).get ⟨i, h2⟩ =
          if (frames.get ⟨i, h1⟩).duration = maxDur frames then
            (⟨(frames.get ⟨i, h1⟩).duration / 2,
              (frames.get ⟨i, h1⟩).subdivisions * 2⟩ : FrameRec)
          else frames.get ⟨i, h1⟩) := by
  refine ⟨?_, ?_, ?_⟩
  · simp only [converged, Bool.or_eq_true, decide_eq_true_eq]
    rw [nat_ratio_iff, nat_abs_iff _ _ (minDur_le_maxDur frames)]
  · intro h
    exact calcLoop_of_converged frames h (n + 1)
  · intro hc
    constructor
    · simp only [calcLoop]
      rw [if_neg (by simp [hc])]
    · intro i h1 h2
      simp [splitStep, List.get_eq_getElem]

/-- Witness for C1 at the concrete record list `[{200, 1}, {100, 1}]`. -/
theorem claim_c1_witness :
    ([(⟨200, 1⟩ : FrameRec), ⟨100, 1⟩] ≠ []) ∧
    ((converged [(⟨200, 1⟩ : FrameRec), ⟨100, 1⟩] = true ↔
      ((maxDur [(⟨200, 1⟩ : FrameRec), ⟨100, 1⟩] : ℚ) ≤
        (minDur [(⟨200, 1⟩ : FrameRec), ⟨100, 1⟩] : ℚ) * 1.1 ∨
       |(maxDur [(⟨200, 1⟩ : FrameRec), ⟨100, 1⟩] : ℤ) -
        (minDur [(⟨200, 1⟩ : FrameRec), ⟨100, 1⟩] : ℤ)| ≤ 10)) ∧
    (converged [(⟨200, 1⟩ : FrameRec), ⟨100, 1⟩] = true →
      calcLoop (0 + 1) [(⟨200, 1⟩ : FrameRec), ⟨100, 1⟩] =
        [(⟨200, 1⟩ : FrameRec), ⟨100, 1⟩]) ∧
    (converged [(⟨200, 1⟩ : FrameRec), ⟨100, 1⟩] = false →
      calcLoop (0 + 1) [(⟨200, 1⟩ : FrameRec), ⟨100, 1⟩] =
        calcLoop 0 (splitStep (maxDur [(⟨200, 1⟩ : FrameRec), ⟨100, 1⟩])
          [(⟨200, 1⟩ : FrameRec), ⟨100, 1⟩]) ∧
      ∀ i (h1 : i < ([(⟨200, 1⟩ : FrameRec), ⟨100, 1⟩]).length)
        (h2 : i < (splitStep (maxDur [(⟨200, 1⟩ : FrameRec), ⟨100, 1⟩])
          [(⟨200, 1⟩ : FrameRec), ⟨100, 1⟩]).length),
        (splitStep (maxDur [(⟨200, 1⟩ : FrameRec), ⟨100, 1⟩])
          [(⟨200, 1⟩ : FrameRec), ⟨100, 1⟩]).get ⟨i, h2⟩ =
          if (([(⟨200, 1⟩ : FrameRec), ⟨100, 1⟩]).get ⟨i, h1⟩).duration =
              maxDur [(⟨200, 1⟩ : FrameRec), ⟨100, 1⟩] then
            (⟨(([(⟨200, 1⟩ : FrameRec), ⟨100, 1⟩]).get ⟨i, h1⟩).duration / 2,
              (([(⟨200, 1⟩ : FrameRec), ⟨100, 1⟩]).get ⟨i, h1⟩).subdivisions * 2⟩
              : FrameRec)
          else ([(⟨200, 1⟩ : FrameRec), ⟨100, 1⟩]).get ⟨i, h1⟩)) :=
  ⟨by decide, claim_c1_loop_step [⟨200, 1⟩, ⟨100, 1⟩] (by decide) 0⟩

/-- C2: for every non-empty duration sequence with all elements at least 1,
`calculate_timing` returns a subdivision-count sequence of the same length
as the input in which every element is a power of two and at least 1. -/
theorem claim_c2_power_of_two (ds : List Nat) (hne : ds ≠ [])
    (hpos : ∀ d ∈ ds, 1 ≤ d) :
    (calculate_timing ds).2.length = ds.length ∧
    ∀ s ∈ (calculate_timing ds).2, (∃ k, s = 2 ^ k) ∧ 1 ≤ s := by
  obtain ⟨d, t, rfl⟩ := List.exists_cons_of_ne_nil hne
  rw [calculate_timing_cons]
  constructor
  · simp [calcLoop_length, initFrames]
  · intro s hs
    simp only [List.mem_map] at hs
    obtain ⟨f, hf, rfl⟩ := hs
    have hpow := subs_pow_calcLoop max_iterations (initFrames (d :: t))
      (by
        intro g hg
        simp only [initFrames, List.mem_map] at hg
        obtain ⟨a, ha, rfl⟩ := hg
        exact ⟨0, rfl⟩) f hf
    obtain ⟨k, hk⟩ := hpow
    exact ⟨⟨k, hk⟩, by rw [hk]; exact Nat.one_le_two_pow⟩

/-- Witness for C2 at the input `[200, 100]`. -/
theorem claim_c2_witness :
    (([200, 100] : List Nat) ≠ []) ∧ (∀ d ∈ ([200, 100] : List Nat), 1 ≤ d) ∧
    ((calculate_timing [200, 100]).2.length = ([200, 100] : List Nat).length ∧
     ∀ s ∈ (calculate_timing [200, 100]).2, (∃ k, s = 2 ^ k) ∧ 1 ≤ s) :=
  ⟨by decide, by decide,
   claim_c2_power_of_two [200, 100] (by decide) (by decide)⟩

/-- C3: for every non-empty input, the uniform duration returned by
`calculate_timing` is the rounded mean of the record durations as they stand
after the balancing loop exits, with no convergence assumption. -/
theorem claim_c3_uniform_duration (ds : List Nat) (hne : ds ≠ []) :
    (calculate_timing ds).1 =
      pyRound (qMean ((calcLoop max_iterations (initFrames ds)).map
        (fun f => f.duration))) := by
  obtain ⟨d, t, rfl⟩ := List.exists_cons_of_ne_nil hne
  rw [calculate_timing_cons]

/-- Witness for C3 at the input `[200, 100]`. -/
theorem claim_c3_witness :
    (([200, 100] : List Nat) ≠ []) ∧
    (calculate_timing [200, 100]).1 =
      pyRound (qMean ((calcLoop max_iterations (initFrames [200, 100])).map
        (fun f => f.duration))) :=
  ⟨by decide, claim_c3_uniform_duration [200, 100] (by decide)⟩

/-- C4: the balancing loop performs at most `max_iterations = 12` splitting
iterations, and when the cap is exhausted without convergence the result is
still computed from the then-current records and returned normally. -/
theorem claim_c4_iteration_cap (ds : List Nat) (hne : ds ≠ []) :
    max_iterations = 12 ∧
    calcIters max_iterations (initFrames ds) ≤ max_iterations ∧
    (converged (calcLoop max_iterations (initFrames ds)) = false →
      calculate_timing ds =
        (pyRound (qMean ((calcLoop max_iterations (initFrames ds)).map
          (fun f => f.duration))),
         (calcLoop max_iterations (initFrames ds)).map
          (fun f => f.subdivisions))) := by
  refine ⟨rfl, calcIters_le _ _, fun _ => ?_⟩
  obtain ⟨d, t, rfl⟩ := List.exists_cons_of_ne_nil hne
  exact calculate_timing_cons d t

/-- Witness for C4 at the input `[1048576, 1]`, which exhausts the cap
without converging. -/
theorem claim_c4_witness :
    (([1048576, 1] : List Nat) ≠ []) ∧
    converged (calcLoop max_iterations (initFrames [1048576, 1])) = false ∧
    (max_iterations = 12 ∧
     calcIters max_iterations (initFrames [1048576, 1]) ≤ max_iterations ∧
     (converged (calcLoop max_iterations (initFrames [1048576, 1])) = false →
       calculate_timing [1048576, 1] =
         (pyRound (qMean ((calcLoop max_iterations
             (initFrames [1048576, 1])).map (fun f => f.duration))),
          (calcLoop max_iterations (initFrames [1048576, 1])).map
            (fun f => f.subdivisions)))) :=
  ⟨by decide, by decide, claim_c4_iteration_cap [1048576, 1] (by decide)⟩

/-- C5: on the empty duration sequence, `calculate_timing` returns the
default uniform duration of 40 milliseconds and an empty count sequence. -/
theorem claim_c5_empty_input : calculate_timing [] = (40, []) := rfl

/-- C6: for any input made of `n ≥ 1` copies of the same duration `d ≥ 1`,
the loop converges with zero splitting iterations and the result is
`(d, n copies of 1)`. -/
theorem claim_c6_all_equal (n d : Nat) (hn : 1 ≤ n) (hd : 1 ≤ d) :
    calculate_timing (List.replicate n d) = ((d : ℤ), List.replicate n 1) ∧
    calcIters max_iterations (initFrames (List.replicate n d)) = 0 := by
  obtain ⟨m, rfl⟩ : ∃ m, n = m + 1 := ⟨n - 1, by omega⟩
  exact ⟨calculate_timing_replicate m d,
    calcIters_of_converged _ (converged_replicate m d) _⟩

/-- Witness for C6 at `n = 3`, `d = 40`. -/
theorem claim_c6_witness :
    (1 : Nat) ≤ 3 ∧ (1 : Nat) ≤ 40 ∧
    (calculate_timing (List.replicate 3 40) = ((40 : ℤ), List.replicate 3 1) ∧
     calcIters max_iterations (initFrames (List.replicate 3 40)) = 0) :=
  ⟨by decide, by decide, claim_c6_all_equal 3 40 (by decide) (by decide)⟩

/-- C7: with matching lengths, the frame expander produces, in original
frame order, `counts[i]` consecutive copies of source frame `i` for each
index, and the output length is the sum of the counts. -/
theorem claim_c7_expander {α : Type} (frames : List α) (counts : List Nat)
    (h : frames.length = counts.length) :
    duplicate_frames_for_timing frames counts =
      some (expandSpec frames counts) ∧
    (expandSpec frames counts).length = counts.sum := by
  constructor
  · simp only [duplicate_frames_for_timing, if_pos h]
    rw [zip_expand_eq frames counts h]
  · exact expandSpec_length frames counts h

/-- Witness for C7: `expand` over `[A, B, C]` with counts `[2, 1, 3]`
yields `[A, A, B, C, C, C]`. -/
theorem claim_c7_witness :
    (["A", "B", "C"].length = ([2, 1, 3] : List Nat).length) ∧
    duplicate_frames_for_timing ["A", "B", "C"] [2, 1, 3] =
      some ["A", "A", "B", "C", "C", "C"] ∧
    ([2, 1, 3] : List Nat).sum = 6 := by
  refine ⟨rfl, ?_, rfl⟩
  have h := (claim_c7_expander ["A", "B", "C"] [2, 1, 3] rfl).1
  rw [h]
  rfl

/-- C8: the frame expander fails (assertion, modelled as `none`) exactly
when the count sequence length differs from the number of source frames;
with matching lengths the error branch is never taken. -/
theorem claim_c8_length_mismatch {α : Type} (frames : List α)
    (counts : List Nat) :
    (frames.length ≠ counts.length →
      duplicate_frames_for_timing frames counts = none) ∧
    (frames.length = counts.length →
      ∃ out, duplicate_frames_for_timing frames counts = some out) := by
  constructor
  · intro h
    simp only [duplicate_frames_for_timing, if_neg h]
  · intro h
    refine ⟨((frames.zip counts).map (fun p => List.replicate p.2 p.1)).flatten,
      ?_⟩
    simp only [duplicate_frames_for_timing, if_pos h]

/-- Witness for C8: a mismatched call returns `none`, a matched call
returns a result. -/
theorem claim_c8_witness :
    duplicate_frames_for_timing ["A"] ([] : List Nat) = none ∧
    ∃ out, duplicate_frames_for_timing ["A"] [2] = some out :=
  ⟨(claim_c8_length_mismatch ["A"] []).1 (by decide),
   (claim_c8_length_mismatch ["A"] [2]).2 rfl⟩

/-- C9: when the expanded sequence has length 1 (single source frame with
subdivision count 1), the normalizer returns uniform duration `d` with
counts `[1]`, the sole frame is duplicated so the encoder receives exactly
two frames, and in the per-frame-duration variant the duration list becomes
`[d, d]`, so both copies use the frame's original duration. -/
theorem claim_c9_single_frame {α : Type} (d : Nat) (x : α) (hd : 1 ≤ d) :
    calculate_timing [d] = ((d : ℤ), [1]) ∧
    handle_single_frame [x] = [x, x] ∧
    (handle_single_frame [x]).length = 2 ∧
    append_single_duration [d] = [d, d] := by
  refine ⟨?_, rfl, rfl, rfl⟩
  exact calculate_timing_replicate 0 d

/-- Witness for C9 at `d = 5` over a single frame. -/
theorem claim_c9_witness :
    (1 : Nat) ≤ 5 ∧
    (calculate_timing [5] = ((5 : ℤ), [1]) ∧
     handle_single_frame ["A"] = ["A", "A"] ∧
     (handle_single_frame ["A"]).length = 2 ∧
     append_single_duration [5] = [5, 5]) :=
  ⟨by decide, claim_c9_single_frame 5 "A" (by decide)⟩

/-- C10: throughout the balancing loop, every record's subdivisions times
its duration never exceeds its original duration, falls short of it by at
most `subdivisions - 1`, and the duration never reaches 0. -/
theorem claim_c10_conservation (ds : List Nat) (hne : ds ≠ [])
    (hpos : ∀ d ∈ ds, 1 ≤ d) (n i : Nat)
    (hf : i < (calcLoop n (initFrames ds)).length) (hd : i < ds.length) :
    recordBounds (ds.get ⟨i, hd⟩) ((calcLoop n (initFrames ds)).get ⟨i, hf⟩) :=
  ((timingInv_calcLoop ds n (initFrames ds) (timingInv_init ds hpos)).2
    i hf hd).2

/-- Witness for C10 at the input `[200, 100]`, index 0, after the full
iteration budget. -/
theorem claim_c10_witness :
    (([200, 100] : List Nat) ≠ []) ∧ (∀ d ∈ ([200, 100] : List Nat), 1 ≤ d) ∧
    recordBounds (([200, 100] : List Nat).get ⟨0, by decide⟩)
      ((calcLoop 12 (initFrames [200, 100])).get ⟨0, by decide⟩) :=
  ⟨by decide, by decide,
   claim_c10_conservation [200, 100] (by decide) (by decide) 12 0
     (by decide) (by decide)⟩
